import Mathlib

/-!
Shallow embedding of the Live Sports Auction backend (src/main.py, src/schemas.py)
and proofs about its behaviour.

Modelling conventions:
* `datetime` values are integers (only order matters to the program);
* `float` monetary amounts are rationals (the program only compares and copies
  amounts, it performs no arithmetic on them);
* the document store (module `database`, not among the sources; `db` behaves as a
  pymongo-style handle) is an in-memory pair of collections kept in insertion
  order and keyed by store-assigned string ids;
* `datetime.now(timezone.utc)` is passed in explicitly: handlers that call it
  once take a `now : Int` argument, and `list_auctions`, which calls it repeatedly,
  takes a `clock : Nat → Int` whose `n`-th value is the `n`-th call's result.
-/

namespace Auctions

/-- The `Auction` document shape (src/schemas.py, class `Auction`), restricted to
the fields the API logic reads or writes.  An `Option` field is `none` when the
key is absent from the stored document; `create_auction` always stores both
prices, but `place_bid` line 121 guards both with `dict.get` defaults. -/
structure Auction where
  title : String
  starting_price : Option ℚ
  current_price : Option ℚ
  start_time : Int
  end_time : Int
  status : String
  updated_at : Option Int
deriving Repr, DecidableEq

/-- The `Bid` document inserted by `place_bid` (src/main.py lines 126-131). -/
structure Bid where
  auction_id : String
  bidder_name : String
  amount : ℚ
  created_at : Int
deriving Repr, DecidableEq

/-- The document store: the `auction` and `bid` collections, in insertion order,
each entry keyed by its store-assigned `_id` rendered as a string. -/
structure DB where
  auctions : List (String × Auction)
  bids : List (String × Bid)
deriving Repr, DecidableEq

/-- Request body of `POST /auctions/\x7bid\x7d/bids` (src/main.py, `PlaceBidRequest`). -/
structure PlaceBidRequest where
  bidder_name : String
  amount : ℚ
deriving Repr, DecidableEq

/-- Request body of `POST /auctions` (src/main.py, `CreateAuctionRequest`),
restricted to the fields the logic uses. -/
structure CreateAuctionRequest where
  title : String
  starting_price : ℚ
  start_time : Int
  end_time : Int
deriving Repr, DecidableEq

/-- Outcome of a handler that can fail.  `http s d` models
`HTTPException(status_code=s, detail=d)`; `unhandled` models a Python exception
that no handler catches (FastAPI turns it into a 500 response, never a 404). -/
inductive ApiError where
  | http (status_code : Nat) (detail : String)
  | unhandled
deriving Repr, DecidableEq

/-- Whether `bson.ObjectId(s)` accepts the string `s`: the bson dependency
accepts exactly 24-character hexadecimal strings and raises `InvalidId`
otherwise. -/
def isValidObjectId (s : String) : Bool :=
  s.data.length == 24 && s.data.all (fun c =>
    (48 ≤ c.toNat && c.toNat ≤ 57) ||
    (97 ≤ c.toNat && c.toNat ≤ 102) ||
    (65 ≤ c.toNat && c.toNat ≤ 70))

/-- The lifecycle status computed in `create_auction` (src/main.py lines 62-67):
`status = "scheduled"`, overwritten to `"live"` when
`start_time <= now <= end_time`, `elif now > end_time` to `"ended"`. -/
def statusAt (now start_time end_time : Int) : String :=
  if start_time ≤ now ∧ now ≤ end_time then "live"
  else if now > end_time then "ended"
  else "scheduled"

/-- The price read on src/main.py line 121:
`float(auction.get("current_price", auction.get("starting_price", 0)))` —
the stored current price, defaulting to the starting price when that key is
absent, and to 0 when both are absent. -/
def currentPriceOf (a : Auction) : ℚ :=
  a.current_price.getD (a.starting_price.getD 0)

/-- Modelled from the spec: `database.get_documents` is not among the sources.
Spec §4.2 `list(filter, limit)`: the stored auction records matching the
optional equality filter on the persisted `status` field — the filter built on
src/main.py lines 44-46 — in deterministic (insertion) order, up to `limit`
records. -/
def get_documents (st : DB) (statusFilter : Option String) (limit : Nat) :
    List (String × Auction) :=
  (st.auctions.filter (fun p =>
    match statusFilter with
    | none => true
    | some s => p.2.status == s)).take limit

/-- Modelled from the store contract: `update_one({"_id": key}, {"$set": ...})`
rewrites the first document whose `_id` matches `key` and leaves every other
document unchanged. -/
def updateAuction (l : List (String × Auction)) (key : String)
    (f : Auction → Auction) : List (String × Auction) :=
  match l with
  | [] => []
  | p :: ps => if p.1 == key then (p.1, f p.2) :: ps else p :: updateAuction ps key f

/-- One listed auction as decorated by the `list_auctions` loop body
(src/main.py lines 49-53): the stored record plus the computed
`is_live = start_time <= now <= end_time` and `has_ended = now > end_time`. -/
structure AuctionView where
  id : String
  auction : Auction
  is_live : Bool
  has_ended : Bool
deriving Repr, DecidableEq

/-- The decoration applied to one auction in the `list_auctions` loop
(src/main.py lines 49-53), given the `now` obtained inside that iteration. -/
def decorateAuction (p : String × Auction) (now : Int) : AuctionView :=
  { id := p.1
    auction := p.2
    is_live := decide (p.2.start_time ≤ now ∧ now ≤ p.2.end_time)
    has_ended := decide (now > p.2.end_time) }

/-- The `for a in auctions` loop of `list_auctions` (src/main.py lines 49-53).
`datetime.now(timezone.utc)` is called anew inside every iteration, so the
iteration handling the `i`-th record uses `clock i`. -/
def decorateAll (clock : Nat → Int) (i : Nat) :
    List (String × Auction) → List AuctionView
  | [] => []
  | p :: ps => decorateAuction p (clock i) :: decorateAll clock (i + 1) ps

/-- Handler `GET /auctions` (src/main.py lines 41-54): fetch up to `limit`
auctions matching the optional status filter, then decorate each with
`is_live`/`has_ended`, calling the clock once per auction. -/
def list_auctions (st : DB) (statusFilter : Option String) (limit : Nat)
    (clock : Nat → Int) : List AuctionView :=
  decorateAll clock 0 (get_documents st statusFilter limit)

/-- Handler `POST /auctions` (src/main.py lines 57-83): compute the creation-time
status snapshot, store the record with `current_price = starting_price`, and
return the store-assigned id.  The id is the `newId` argument — ids are opaque
and store-assigned (`database.create_document` is not among the sources). -/
def create_auction (st : DB) (payload : CreateAuctionRequest) (now : Int)
    (newId : String) : String × DB :=
  let a : Auction :=
    { title := payload.title
      starting_price := some payload.starting_price
      current_price := some payload.starting_price
      start_time := payload.start_time
      end_time := payload.end_time
      status := statusAt now payload.start_time payload.end_time
      updated_at := none }
  (newId, { st with auctions := st.auctions ++ [(newId, a)] })

/-- Comparison used to order `top_bids`: amount descending. -/
def insertByAmountDesc (b : String × Bid) :
    List (String × Bid) → List (String × Bid)
  | [] => [b]
  | c :: cs =>
    if b.2.amount < c.2.amount then c :: insertByAmountDesc b cs else b :: c :: cs

/-- Stable sort by amount descending: every element is placed after the strictly
higher-amount elements and before the lower-or-equal ones, so bids of equal
amount keep their insertion order (earliest first). -/
def sortByAmountDesc : List (String × Bid) → List (String × Bid)
  | [] => []
  | b :: bs => insertByAmountDesc b (sortByAmountDesc bs)

/-- The stored bids belonging to one auction, in insertion order
(`db["bid"].find({"auction_id": auction_id})`). -/
def bidsFor (st : DB) (auction_id : String) : List (String × Bid) :=
  st.bids.filter (fun p => p.2.auction_id == auction_id)

/-- Modelled from the spec: the query on src/main.py line 101
(`db["bid"].find({"auction_id": ...}).sort("amount", -1).limit(10)`) executes in
the document store, whose code is not among the sources.  Spec §4.3 `topN`:
up to `n` bids of the auction ordered by amount descending, ties broken by
insertion order (earliest first) for determinism. -/
def topN (st : DB) (auction_id : String) (n : Nat) : List (String × Bid) :=
  (sortByAmountDesc (bidsFor st auction_id)).take n

/-- Response of `GET /auctions/\x7bid\x7d`: the stored document (its persisted
`status` field included, unchanged) plus `top_bids`. -/
structure AuctionDetail where
  id : String
  auction : Auction
  top_bids : List (String × Bid)
deriving Repr, DecidableEq

/-- Handler `GET /auctions/\x7bid\x7d` (src/main.py lines 86-105).  The `try`
block catches the `InvalidId` raised by `ObjectId` on a malformed id and maps it
to HTTP 400; an absent document is HTTP 404; otherwise the stored document is
returned as-is together with its top ten bids by amount. -/
def get_auction (st : DB) (auction_id : String) : Except ApiError AuctionDetail :=
  if ¬ isValidObjectId auction_id = true then
    .error (.http 400 "Invalid auction id")
  else
    match st.auctions.lookup auction_id with
    | none => .error (.http 404 "Auction not found")
    | some a =>
      .ok { id := auction_id, auction := a, top_bids := topN st auction_id 10 }

/-- Success body of `POST /auctions/\x7bid\x7d/bids` (src/main.py line 137). -/
structure BidResult where
  id : String
  current_price : ℚ
deriving Repr, DecidableEq

/-- Handler `POST /auctions/\x7bid\x7d/bids` (src/main.py lines 108-137).  Unlike
`get_auction`, nothing catches the `InvalidId` raised by `ObjectId(auction_id)`
on line 113, so a malformed id ends as `ApiError.unhandled` (an HTTP 500).  The
new bid's store-assigned id is `newBidId`.  The handler returns the response
together with the resulting store state; every error return happens before the
insert on line 132 and the update on line 135, so those paths return the state
unchanged. -/
def place_bid (st : DB) (auction_id : String) (payload : PlaceBidRequest)
    (now : Int) (newBidId : String) : Except ApiError BidResult × DB :=
  if ¬ isValidObjectId auction_id = true then
    (.error .unhandled, st)
  else
    match st.auctions.lookup auction_id with
    | none => (.error (.http 404 "Auction not found"), st)
    | some auction =>
      if ¬ (auction.start_time ≤ now ∧ now ≤ auction.end_time) then
        (.error (.http 400 "Auction is not live"), st)
      else
        if payload.amount ≤ currentPriceOf auction then
          (.error (.http 400 "Bid must be higher than current price"), st)
        else
          let bid_doc : Bid :=
            { auction_id := auction_id
              bidder_name := payload.bidder_name
              amount := payload.amount
              created_at := now }
          let st1 : DB := { st with bids := st.bids ++ [(newBidId, bid_doc)] }
          let newAuctions := updateAuction st1.auctions auction_id (fun a =>
            { a with current_price := some payload.amount,
                     updated_at := some now })
          let st2 : DB := { st1 with auctions := newAuctions }
          (.ok { id := newBidId, current_price := payload.amount }, st2)

/-!
Interleaved execution model of concurrent `place_bid` requests (src/main.py
lines 113-135), for the concurrency claims.  Each in-flight request performs, as
separate atomic store operations: the read of the current price (line 121,
together with the line-122 comparison against the amount), the bid insert
(line 132), and the price write (line 135).  The write is the code's plain
`update_one`: it stores the request's amount unconditionally, without comparing
the stored price against the price the request observed.  The auction lookup and
liveness check are elided: in the scenarios considered the auction exists and
remains live throughout.
-/

/-- The phase of one in-flight `place_bid` request. -/
inductive Phase where
  | start
  | checked (observed : ℚ)
  | inserted (observed : ℚ)
  | done (accepted : Bool)
deriving Repr, DecidableEq

/-- One in-flight `place_bid` request: its bid amount and current phase. -/
structure Request where
  amount : ℚ
  phase : Phase
deriving Repr, DecidableEq

/-- Shared state of the race: the auction's stored `current_price`, the in-flight
requests, and the amounts of the bids accepted so far, in acceptance order. -/
structure RaceState where
  current_price : ℚ
  requests : List Request
  accepted : List ℚ
deriving Repr, DecidableEq

/-- Advance request `i` by one atomic store operation, following `place_bid`:
a `start` request reads the stored price and applies the line-122 comparison,
finishing rejected unless its amount is strictly higher; a `checked` request
performs the bid insert; an `inserted` request performs the line-135 write,
which stores its amount without any compare-and-set, and the bid counts as
accepted. -/
def raceStep (s : RaceState) (i : Nat) : RaceState :=
  match s.requests.get? i with
  | none => s
  | some r =>
    match r.phase with
    | .start =>
      if r.amount ≤ s.current_price then
        { s with requests := s.requests.set i { r with phase := .done false } }
      else
        { s with requests := s.requests.set i { r with phase := .checked s.current_price } }
    | .checked p =>
      { s with requests := s.requests.set i { r with phase := .inserted p } }
    | .inserted _ =>
      { s with current_price := r.amount,
               accepted := s.accepted ++ [r.amount],
               requests := s.requests.set i { r with phase := .done true } }
    | .done _ => s

/-- Run a schedule: at each step, the named request performs its next atomic
store operation. -/
def raceRun (s : RaceState) : List Nat → RaceState
  | [] => s
  | i :: is => raceRun (raceStep s i) is

/-- Two bidders race on an auction priced 100: request 0 bids 200, request 1
bids 150. -/
def raceInit : RaceState :=
  { current_price := 100,
    requests := [{ amount := 200, phase := .start }, { amount := 150, phase := .start }],
    accepted := [] }

/-- The interleaving in which both requests read the price (100) before either
writes, request 0 then inserts and writes, and request 1 then inserts and
writes. -/
def raceSchedule : List Nat := [0, 1, 0, 0, 1, 1]

/-!
State-changing operations, for the monotonicity claim.  The read-only handlers
(`list_auctions`, `get_auction`) take the store by value and return no new
state, so a sequence of API calls changes the store exactly through the
operations below.
-/

/-- A state-changing API call: an auction creation or a bid attempt (with the
`now` its handler observes and the id the store assigns). -/
inductive Op where
  | create (payload : CreateAuctionRequest) (now : Int) (newId : String)
  | bid (auction_id : String) (payload : PlaceBidRequest) (now : Int) (newBidId : String)

/-- The store state after one API call. -/
def applyOp (st : DB) : Op → DB
  | .create payload now newId => (create_auction st payload now newId).2
  | .bid aid payload now newBidId => (place_bid st aid payload now newBidId).2

/-- The store state after a sequence of API calls. -/
def applyOps (st : DB) : List Op → DB
  | [] => st
  | op :: ops => applyOps (applyOp st op) ops

/-!
Concrete sample data used by witnesses and counterexamples.
-/

/-- A well-formed `ObjectId` string (24 hexadecimal characters). -/
def vid1 : String := "0123456789abcdef01234567"

/-- Another well-formed `ObjectId` string. -/
def vid2 : String := "aaaaaaaaaaaaaaaaaaaaaaaa"

/-- A live auction priced at 100 with window `[0, 10]`. -/
def liveAuction : Auction :=
  { title := "jersey", starting_price := some 100, current_price := some 100,
    start_time := 0, end_time := 10, status := "live", updated_at := none }

/-- A store holding the single auction `liveAuction` under id `vid1`. -/
def liveDB : DB := { auctions := [(vid1, liveAuction)], bids := [] }

/-- An auction whose persisted status snapshot says `"scheduled"` although its
window `[0, 10]` makes it live at `now = 5`: the snapshot taken at creation has
gone stale. -/
def staleAuction : Auction :=
  { title := "card", starting_price := some 100, current_price := some 100,
    start_time := 0, end_time := 10, status := "scheduled", updated_at := none }

/-- A store holding only `staleAuction`, under id `vid2`. -/
def staleDB : DB := { auctions := [(vid2, staleAuction)], bids := [] }

/-- A store holding two identical live auctions, for observing the per-auction
clock calls of the listing loop. -/
def twinDB : DB := { auctions := [(vid1, liveAuction), (vid2, liveAuction)], bids := [] }

/-- A clock whose first call (during the listing loop's first iteration) returns
5, inside the `[0, 10]` window, and whose later calls return 20, after it. -/
def jumpClock : Nat → Int := fun n => if n = 0 then 5 else 20

/-- A store with four bids on `liveAuction`, amounts 120, 150, 150, 110 in
insertion order — a tie at 150 between the second- and third-inserted bids. -/
def bidDB : DB :=
  { auctions := [(vid1, liveAuction)],
    bids := [("b1", { auction_id := vid1, bidder_name := "A", amount := 120, created_at := 1 }),
             ("b2", { auction_id := vid1, bidder_name := "B", amount := 150, created_at := 2 }),
             ("b3", { auction_id := vid1, bidder_name := "C", amount := 150, created_at := 3 }),
             ("b4", { auction_id := vid1, bidder_name := "D", amount := 110, created_at := 4 })] }

/-!
Helper lemmas about the store primitives.
-/

theorem lookup_append_some {α β : Type} [BEq α] {l : List (α × β)} (l₂ : List (α × β))
    {k : α} {b : β} (h : l.lookup k = some b) : (l ++ l₂).lookup k = some b := by
  induction l with
  | nil => simp at h
  | cons p ps ih =>
    obtain ⟨k', b'⟩ := p
    rw [List.lookup_cons] at h
    rw [List.cons_append, List.lookup_cons]
    cases hk : k == k' <;> simp only [hk] at h ⊢
    · exact ih h
    · exact h

theorem lookup_updateAuction_self (l : List (String × Auction)) (k : String)
    (f : Auction → Auction) :
    (updateAuction l k f).lookup k = (l.lookup k).map f := by
  induction l with
  | nil => simp [updateAuction]
  | cons p ps ih =>
    obtain ⟨k', a⟩ := p
    by_cases hk : k' = k
    · subst hk
      simp [updateAuction, List.lookup_cons]
    · have h1 : (k' == k) = false := by simp [hk]
      have h2 : (k == k') = false := by simp [Ne.symm hk]
      rw [updateAuction]
      simp only [h1, Bool.false_eq_true, if_false]
      rw [List.lookup_cons, List.lookup_cons]
      simp only [h2, ih]

theorem lookup_updateAuction_ne (l : List (String × Auction)) (k k' : String)
    (f : Auction → Auction) (h : k' ≠ k) :
    (updateAuction l k f).lookup k' = l.lookup k' := by
  induction l with
  | nil => simp [updateAuction]
  | cons p ps ih =>
    obtain ⟨k0, a⟩ := p
    rw [updateAuction]
    by_cases hk : k0 = k
    · subst hk
      have h2 : (k' == k0) = false := by simp [h]
      simp only [beq_self_eq_true, if_true]
      rw [List.lookup_cons, List.lookup_cons]
      simp only [h2]
    · have h1 : (k0 == k) = false := by simp [hk]
      simp only [h1, Bool.false_eq_true, if_false]
      rw [List.lookup_cons, List.lookup_cons]
      cases hk' : k' == k0 <;> simp only [ih]

theorem decorateAll_getElem? (clock : Nat → Int) (i j : Nat)
    (l : List (String × Auction)) :
    (decorateAll clock i l)[j]? =
      l[j]?.map (fun p => decorateAuction p (clock (i + j))) := by
  induction l generalizing i j with
  | nil => simp [decorateAll]
  | cons p ps ih =>
    cases j with
    | zero => simp [decorateAll]
    | succ j =>
      have hij : i + (j + 1) = (i + 1) + j := by omega
      simp [decorateAll, ih (i + 1) j, hij]

/-!
Helper lemmas about the stable descending sort behind `topN`.
-/

theorem perm_insertByAmountDesc (b : String × Bid) (l : List (String × Bid)) :
    List.Perm (insertByAmountDesc b l) (b :: l) := by
  induction l with
  | nil => exact List.Perm.refl _
  | cons c cs ih =>
    rw [insertByAmountDesc]
    by_cases h : b.2.amount < c.2.amount
    · rw [if_pos h]
      exact (ih.cons c).trans (List.Perm.swap b c cs)
    · rw [if_neg h]

theorem perm_sortByAmountDesc (l : List (String × Bid)) :
    List.Perm (sortByAmountDesc l) l := by
  induction l with
  | nil => exact List.Perm.refl _
  | cons b bs ih =>
    rw [sortByAmountDesc]
    exact (perm_insertByAmountDesc b _).trans (ih.cons b)

theorem pairwise_insertByAmountDesc {b : String × Bid} {l : List (String × Bid)}
    (hl : List.Pairwise (fun x y => y.2.amount ≤ x.2.amount) l) :
    List.Pairwise (fun x y => y.2.amount ≤ x.2.amount) (insertByAmountDesc b l) := by
  induction l with
  | nil => simp [insertByAmountDesc]
  | cons c cs ih =>
    rw [List.pairwise_cons] at hl
    obtain ⟨hc, hcs⟩ := hl
    rw [insertByAmountDesc]
    by_cases h : b.2.amount < c.2.amount
    · rw [if_pos h, List.pairwise_cons]
      refine ⟨fun y hy => ?_, ih hcs⟩
      rcases List.mem_cons.mp ((perm_insertByAmountDesc b cs).mem_iff.mp hy) with rfl | hy
      · exact le_of_lt h
      · exact hc y hy
    · rw [if_neg h, List.pairwise_cons]
      refine ⟨fun y hy => ?_, List.pairwise_cons.mpr ⟨hc, hcs⟩⟩
      rcases List.mem_cons.mp hy with rfl | hy
      · exact le_of_not_lt h
      · exact le_trans (hc y hy) (le_of_not_lt h)

theorem pairwise_sortByAmountDesc (l : List (String × Bid)) :
    List.Pairwise (fun x y => y.2.amount ≤ x.2.amount) (sortByAmountDesc l) := by
  induction l with
  | nil => simp [sortByAmountDesc]
  | cons b bs ih =>
    rw [sortByAmountDesc]
    exact pairwise_insertByAmountDesc ih

theorem filter_insertByAmountDesc (b : String × Bid) (l : List (String × Bid)) (q : ℚ) :
    (insertByAmountDesc b l).filter (fun p => decide (p.2.amount = q)) =
      if b.2.amount = q then b :: l.filter (fun p => decide (p.2.amount = q))
      else l.filter (fun p => decide (p.2.amount = q)) := by
  induction l with
  | nil => by_cases hb : b.2.amount = q <;> simp [insertByAmountDesc, hb]
  | cons c cs ih =>
    rw [insertByAmountDesc]
    by_cases h : b.2.amount < c.2.amount
    · rw [if_pos h]
      by_cases hb : b.2.amount = q
      · have hc : ¬ c.2.amount = q := by
          intro hc
          rw [hb, hc] at h
          exact absurd h (lt_irrefl q)
        simp [List.filter_cons, hc, ih, hb]
      · by_cases hc : c.2.amount = q <;> simp [List.filter_cons, hc, ih, hb]
    · rw [if_neg h]
      by_cases hb : b.2.amount = q <;> simp [List.filter_cons, hb]

theorem filter_sortByAmountDesc (l : List (String × Bid)) (q : ℚ) :
    (sortByAmountDesc l).filter (fun p => decide (p.2.amount = q)) =
      l.filter (fun p => decide (p.2.amount = q)) := by
  induction l with
  | nil => rfl
  | cons b bs ih =>
    rw [sortByAmountDesc, filter_insertByAmountDesc]
    by_cases hb : b.2.amount = q <;> simp [List.filter_cons, hb, ih]

/-!
Helper lemmas characterising `place_bid`.
-/

theorem place_bid_ok_eq (st : DB) (aid : String) (payload : PlaceBidRequest)
    (now : Int) (newBidId : String) (a : Auction)
    (hid : isValidObjectId aid = true)
    (hfind : st.auctions.lookup aid = some a)
    (hlive : a.start_time ≤ now ∧ now ≤ a.end_time)
    (hamt : currentPriceOf a < payload.amount) :
    place_bid st aid payload now newBidId =
      (.ok { id := newBidId, current_price := payload.amount },
       { auctions := updateAuction st.auctions aid (fun b =>
           { b with current_price := some payload.amount, updated_at := some now }),
         bids := st.bids ++ [(newBidId,
           { auction_id := aid, bidder_name := payload.bidder_name,
             amount := payload.amount, created_at := now })] }) := by
  rw [place_bid]
  simp only [hid, hfind, not_true, if_false, if_neg (not_not_intro hlive),
    if_neg (not_le.mpr hamt)]

theorem place_bid_cases (st : DB) (aid : String) (payload : PlaceBidRequest)
    (now : Int) (newBidId : String) :
    ((∃ e, (place_bid st aid payload now newBidId).1 = .error e) ∧
      (place_bid st aid payload now newBidId).2 = st) ∨
    ∃ a, st.auctions.lookup aid = some a ∧
      (a.start_time ≤ now ∧ now ≤ a.end_time) ∧
      currentPriceOf a < payload.amount ∧
      (place_bid st aid payload now newBidId).1 =
        .ok { id := newBidId, current_price := payload.amount } ∧
      (place_bid st aid payload now newBidId).2 =
        { auctions := updateAuction st.auctions aid (fun b =>
            { b with current_price := some payload.amount, updated_at := some now }),
          bids := st.bids ++ [(newBidId,
            { auction_id := aid, bidder_name := payload.bidder_name,
              amount := payload.amount, created_at := now })] } := by
  rw [place_bid]
  split
  · exact Or.inl ⟨⟨_, rfl⟩, rfl⟩
  · split
    · exact Or.inl ⟨⟨_, rfl⟩, rfl⟩
    · next a heq =>
      split
      · exact Or.inl ⟨⟨_, rfl⟩, rfl⟩
      · next hlive =>
        split
        · exact Or.inl ⟨⟨_, rfl⟩, rfl⟩
        · next hle =>
          exact Or.inr ⟨a, heq, not_not.mp hlive, not_le.mp hle, rfl, rfl⟩

/-!
Helper lemmas about the clock policy and price monotonicity.
-/

theorem statusAt_eq_live (now s e : Int) :
    statusAt now s e = "live" ↔ (s ≤ now ∧ now ≤ e) := by
  rw [statusAt]
  split_ifs with h1 h2
  · simp [h1]
  · simp only [iff_false_intro h1, iff_false]
    decide
  · simp only [iff_false_intro h1, iff_false]
    decide

theorem statusAt_eq_ended (now s e : Int) :
    statusAt now s e = "ended" ↔ e < now := by
  rw [statusAt]
  split_ifs with h1 h2
  · constructor
    · intro hx
      exact absurd hx (by decide)
    · intro hx
      omega
  · simp [h2]
  · constructor
    · intro hx
      exact absurd hx (by decide)
    · intro hx
      exact absurd hx h2

theorem statusAt_eq_scheduled (now s e : Int) :
    statusAt now s e = "scheduled" ↔ (now < s ∧ now ≤ e) := by
  rw [statusAt]
  split_ifs with h1 h2
  · constructor
    · intro hx
      exact absurd hx (by decide)
    · intro hx
      omega
  · constructor
    · intro hx
      exact absurd hx (by decide)
    · intro hx
      omega
  · simp only [true_iff]
    omega

theorem applyOp_price_mono (op : Op) (st : DB) (aid : String) (a : Auction)
    (h : st.auctions.lookup aid = some a) :
    ∃ a', (applyOp st op).auctions.lookup aid = some a' ∧
      currentPriceOf a ≤ currentPriceOf a' := by
  cases op with
  | create payload now newId =>
    refine ⟨a, ?_, le_refl _⟩
    exact lookup_append_some _ h
  | bid aid0 payload now newBidId =>
    rcases place_bid_cases st aid0 payload now newBidId with ⟨_, hst⟩ | ⟨b, hb, _, hlt, _, hst⟩
    · refine ⟨a, ?_, le_refl _⟩
      show (place_bid st aid0 payload now newBidId).2.auctions.lookup aid = some a
      rw [hst]
      exact h
    · by_cases haid : aid = aid0
      · subst haid
        rw [h] at hb
        obtain rfl := Option.some.inj hb
        refine ⟨{ a with current_price := some payload.amount, updated_at := some now },
          ?_, ?_⟩
        · show (place_bid st aid payload now newBidId).2.auctions.lookup aid = _
          rw [hst]
          show (updateAuction st.auctions aid _).lookup aid = _
          rw [lookup_updateAuction_self, h]
          rfl
        · exact le_of_lt hlt
      · refine ⟨a, ?_, le_refl _⟩
        show (place_bid st aid0 payload now newBidId).2.auctions.lookup aid = some a
        rw [hst]
        show (updateAuction st.auctions aid0 _).lookup aid = some a
        rw [lookup_updateAuction_ne _ _ _ _ haid]
        exact h

theorem applyOps_price_mono (ops : List Op) (st : DB) (aid : String) (a : Auction)
    (h : st.auctions.lookup aid = some a) :
    ∃ a', (applyOps st ops).auctions.lookup aid = some a' ∧
      currentPriceOf a ≤ currentPriceOf a' := by
  induction ops generalizing st a with
  | nil => exact ⟨a, h, le_refl _⟩
  | cons op ops ih =>
    obtain ⟨b, hb, hab⟩ := applyOp_price_mono op st aid a h
    obtain ⟨c, hc, hbc⟩ := ih (applyOp st op) b hb
    exact ⟨c, hc, le_trans hab hbc⟩

/-!
The claims.
-/

/-- C1: for every bid placed on an existing auction whose live window contains
the request's `now` and whose amount strictly exceeds the auction's current
price (defaulting to `starting_price` when `current_price` is unset, which is
what `currentPriceOf` computes), `place_bid` inserts a bid record, sets the
auction's `current_price` to exactly the bid amount (and sets `updated_at` to
`now`), and returns the new bid's id together with the new current price equal
to that amount. -/
theorem place_bid_success (st : DB) (aid : String) (payload : PlaceBidRequest)
    (now : Int) (newBidId : String) (a : Auction)
    (hid : isValidObjectId aid = true)
    (hfind : st.auctions.lookup aid = some a)
    (hlive : a.start_time ≤ now ∧ now ≤ a.end_time)
    (hamt : currentPriceOf a < payload.amount) :
    (place_bid st aid payload now newBidId).1 =
      .ok { id := newBidId, current_price := payload.amount } ∧
    (place_bid st aid payload now newBidId).2.bids =
      st.bids ++ [(newBidId,
        { auction_id := aid, bidder_name := payload.bidder_name,
          amount := payload.amount, created_at := now })] ∧
    (place_bid st aid payload now newBidId).2.auctions.lookup aid =
      some { a with current_price := some payload.amount, updated_at := some now } := by
  rw [place_bid_ok_eq st aid payload now newBidId a hid hfind hlive hamt]
  refine ⟨rfl, rfl, ?_⟩
  show (updateAuction st.auctions aid _).lookup aid = _
  rw [lookup_updateAuction_self, hfind]
  rfl

/-- C1 witness: bidder "A" bids 150 on the live auction priced 100, at
`now = 5` inside the window `[0, 10]`. -/
theorem place_bid_success_witness :
    (place_bid liveDB vid1 { bidder_name := "A", amount := 150 } 5 "b1").1 =
      .ok { id := "b1", current_price := 150 } :=
  (place_bid_success liveDB vid1 { bidder_name := "A", amount := 150 } 5 "b1"
    liveAuction (by decide) rfl (by decide) (by decide)).1

/-- C2 counterexample: the claim quantifies over every `(now, start_time,
end_time)` and requires status `"scheduled"` whenever `now < start_time`; but
for the inverted window `start_time = 10 > end_time = 5` and `now = 7 < 10` the
code computes `"ended"`, because the `elif now > end_time` branch fires. -/
theorem status_rule_counterexample :
    (7 : Int) < 10 ∧ statusAt 7 10 5 = "ended" ∧ statusAt 7 10 5 ≠ "scheduled" :=
  ⟨by decide, rfl, by decide⟩

/-- C2 (amended): for every `(now, start_time, end_time)` with
`start_time ≤ end_time`, the computed status is exactly one of scheduled, live,
ended, with `now < start_time` giving scheduled, `start_time ≤ now ≤ end_time`
(boundaries inclusive) giving live, and `now > end_time` giving ended; the
`is_live`/`has_ended` flags computed by the listing loop agree with these
boundary rules. -/
theorem status_boundary_rules (now start_time end_time : Int)
    (h : start_time ≤ end_time) :
    (statusAt now start_time end_time = "scheduled" ∨
     statusAt now start_time end_time = "live" ∨
     statusAt now start_time end_time = "ended") ∧
    (now < start_time ↔ statusAt now start_time end_time = "scheduled") ∧
    ((start_time ≤ now ∧ now ≤ end_time) ↔ statusAt now start_time end_time = "live") ∧
    (end_time < now ↔ statusAt now start_time end_time = "ended") ∧
    (∀ p : String × Auction, ∀ t : Int,
      ((decorateAuction p t).is_live = true ↔
        statusAt t p.2.start_time p.2.end_time = "live") ∧
      ((decorateAuction p t).has_ended = true ↔
        statusAt t p.2.start_time p.2.end_time = "ended")) := by
  refine ⟨?_, ?_, ?_, ?_, ?_⟩
  · rw [statusAt]
    split_ifs
    · exact Or.inr (Or.inl rfl)
    · exact Or.inr (Or.inr rfl)
    · exact Or.inl rfl
  · rw [statusAt_eq_scheduled]
    omega
  · exact (statusAt_eq_live now start_time end_time).symm
  · exact (statusAt_eq_ended now start_time end_time).symm
  · intro p t
    constructor
    · rw [statusAt_eq_live]
      simp [decorateAuction]
    · rw [statusAt_eq_ended]
      simp [decorateAuction]

/-- C2 witness: at `now = 0` on the window `[0, 0]` (both boundaries), the
status is live. -/
theorem status_boundary_rules_witness : statusAt 0 0 0 = "live" :=
  ((status_boundary_rules 0 0 0 (by decide)).2.2.1).mp (by decide)

/-- C3: over every sequence of state-changing API calls, the current price of
an auction never decreases — and every accepted bid's amount strictly exceeds
the price it replaces, which is also the price returned. -/
theorem current_price_monotone (ops : List Op) (st : DB) (aid : String)
    (a a' : Auction)
    (h : st.auctions.lookup aid = some a)
    (h' : (applyOps st ops).auctions.lookup aid = some a') :
    currentPriceOf a ≤ currentPriceOf a' ∧
    ∀ (st0 : DB) (aid0 : String) (payload : PlaceBidRequest) (now : Int)
      (nid : String) (b : Auction) (r : BidResult),
      st0.auctions.lookup aid0 = some b →
      (place_bid st0 aid0 payload now nid).1 = .ok r →
      currentPriceOf b < payload.amount ∧ r.current_price = payload.amount := by
  constructor
  · obtain ⟨c, hc, hac⟩ := applyOps_price_mono ops st aid a h
    rw [h'] at hc
    exact (Option.some.inj hc) ▸ hac
  · intro st0 aid0 payload now nid b r hb hok
    rcases place_bid_cases st0 aid0 payload now nid with ⟨⟨e, he⟩, _⟩ | ⟨c, hcf, _, hlt, hok', _⟩
    · rw [hok] at he
      exact absurd he (by simp)
    · rw [hb] at hcf
      obtain rfl := Option.some.inj hcf
      rw [hok] at hok'
      obtain rfl := Except.ok.inj hok'
      exact ⟨hlt, rfl⟩

/-- C3 witness: after bids of 150 then 200 on the auction priced 100, the
stored price rose from 100 to 200. -/
theorem current_price_monotone_witness :
    currentPriceOf liveAuction ≤
      currentPriceOf { liveAuction with current_price := some 200, updated_at := some 6 } :=
  (current_price_monotone
    [.bid vid1 { bidder_name := "A", amount := 150 } 5 "b1",
     .bid vid1 { bidder_name := "B", amount := 200 } 6 "b2"]
    liveDB vid1 liveAuction
    { liveAuction with current_price := some 200, updated_at := some 6 }
    rfl rfl).1

/-- C4: a bid on a live auction whose amount is less than or equal to the
current price (equality included) is rejected with HTTP 400
"Bid must be higher than current price", and the state is unchanged. -/
theorem place_bid_rejects_le (st : DB) (aid : String) (payload : PlaceBidRequest)
    (now : Int) (newBidId : String) (a : Auction)
    (hid : isValidObjectId aid = true)
    (hfind : st.auctions.lookup aid = some a)
    (hlive : a.start_time ≤ now ∧ now ≤ a.end_time)
    (hamt : payload.amount ≤ currentPriceOf a) :
    place_bid st aid payload now newBidId =
      (.error (.http 400 "Bid must be higher than current price"), st) := by
  rw [place_bid]
  simp only [hid, hfind, not_true, if_false, if_neg (not_not_intro hlive),
    if_pos hamt]

/-- C4 witness: a bid of exactly the current price 100 on the live auction is
rejected. -/
theorem place_bid_rejects_le_witness :
    place_bid liveDB vid1 { bidder_name := "B", amount := 100 } 5 "b1" =
      (.error (.http 400 "Bid must be higher than current price"), liveDB) :=
  place_bid_rejects_le liveDB vid1 { bidder_name := "B", amount := 100 } 5 "b1"
    liveAuction (by decide) rfl (by decide) (by decide)

/-- C5 counterexample: the claim requires NotFound (HTTP 404) also for a
malformed `auction_id`, but `place_bid` has no handler around
`ObjectId(auction_id)`, so a malformed id raises an uncaught exception (an HTTP
500 response), which is not the 404 NotFound error — here shown for the
malformed id "not-an-objectid" with a large amount. -/
theorem place_bid_malformed_counterexample :
    place_bid liveDB "not-an-objectid" { bidder_name := "A", amount := 1000000 } 5 "b1" =
      (.error .unhandled, liveDB) ∧
    ApiError.unhandled ≠ .http 404 "Auction not found" :=
  ⟨rfl, by decide⟩

/-- C5 (amended): for every well-formed `auction_id` that refers to no stored
auction, `place_bid` fails with NotFound (HTTP 404) regardless of the bid
amount and leaves the state unchanged; a malformed `auction_id` instead raises
an uncaught exception before any lookup, also leaving the state unchanged. -/
theorem place_bid_absent_or_malformed (st : DB) (aid : String)
    (payload : PlaceBidRequest) (now : Int) (newBidId : String) :
    (isValidObjectId aid = true → st.auctions.lookup aid = none →
      place_bid st aid payload now newBidId =
        (.error (.http 404 "Auction not found"), st)) ∧
    (isValidObjectId aid = false →
      place_bid st aid payload now newBidId = (.error .unhandled, st)) := by
  constructor
  · intro hid habs
    rw [place_bid]
    simp only [hid, habs, not_true, if_false]
  · intro hid
    rw [place_bid, if_pos (by simp [hid])]

/-- C5 witness: a bid of a million on the absent (well-formed) id `vid2` is a
404, with the store unchanged. -/
theorem place_bid_absent_witness :
    place_bid liveDB vid2 { bidder_name := "A", amount := 1000000 } 5 "b1" =
      (.error (.http 404 "Auction not found"), liveDB) :=
  (place_bid_absent_or_malformed liveDB vid2
    { bidder_name := "A", amount := 1000000 } 5 "b1").1 (by decide) rfl

/-- C6 counterexample: `staleAuction` has window `[0, 10]` and persisted status
snapshot `"scheduled"`; at `now = 5` the clock policy says live, yet the list
endpoint filtered by `"live"` omits it, the list filtered by `"scheduled"`
returns it (flagged `is_live = true`), and `get_auction` returns the persisted
`"scheduled"` unchanged — so the stored status does decide filter membership
and is returned by the get path. -/
theorem stale_status_counterexample :
    statusAt 5 staleAuction.start_time staleAuction.end_time = "live" ∧
    list_auctions staleDB (some "live") 20 (fun _ => 5) = [] ∧
    (∃ v, list_auctions staleDB (some "scheduled") 20 (fun _ => 5) = [v] ∧
      v.is_live = true) ∧
    (∃ d, get_auction staleDB vid2 = .ok d ∧ d.auction.status = "scheduled") :=
  ⟨rfl, rfl, ⟨_, rfl, rfl⟩, ⟨_, rfl, rfl⟩⟩

/-- C6 (amended): the list endpoint computes `is_live`/`has_ended` from
`(now, start_time, end_time)` only — the persisted status field does not affect
them; however the optional status filter matches the persisted status field of
the stored records, and `get_auction` returns the stored document (its
persisted status included) without recomputation. -/
theorem read_paths_status_use (st : DB) (s : String) (lim : Nat) :
    (∀ p : String × Auction, ∀ t : Int, ∀ s' : String,
      (decorateAuction (p.1, { p.2 with status := s' }) t).is_live =
        (decorateAuction p t).is_live ∧
      (decorateAuction (p.1, { p.2 with status := s' }) t).has_ended =
        (decorateAuction p t).has_ended) ∧
    (∀ p, p ∈ get_documents st (some s) lim → p.2.status = s) ∧
    (∀ aid d, get_auction st aid = .ok d →
      st.auctions.lookup aid = some d.auction) := by
  refine ⟨fun p t s' => ⟨rfl, rfl⟩, ?_, ?_⟩
  · intro p hp
    rw [get_documents] at hp
    have hp' := List.mem_filter.mp (List.mem_of_mem_take hp)
    exact eq_of_beq hp'.2
  · intro aid d h
    rw [get_auction] at h
    split at h
    · exact absurd h (by simp)
    · split at h
      · exact absurd h (by simp)
      · next a heq =>
        obtain rfl := Except.ok.inj h
        exact heq

/-- C6 witness: membership of `staleAuction` in the `"scheduled"`-filtered
listing implies its stored status is `"scheduled"`, and fetching it returns
exactly the stored record. -/
theorem read_paths_status_use_witness :
    (vid2, staleAuction).2.status = "scheduled" ∧
    staleDB.auctions.lookup vid2 =
      some ({ id := vid2, auction := staleAuction,
              top_bids := topN staleDB vid2 10 } : AuctionDetail).auction :=
  ⟨(read_paths_status_use staleDB "scheduled" 20).2.1 (vid2, staleAuction) (by decide),
   (read_paths_status_use staleDB "scheduled" 20).2.2 vid2
     { id := vid2, auction := staleAuction, top_bids := topN staleDB vid2 10 } rfl⟩

/-- C7: the price write of `place_bid` (line 135) is a plain unconditional
`update_one`, not a compare-and-set, so concurrent bids lose updates.  In the
interleaving `raceSchedule` over `raceInit` — auction priced 100, request 0
bidding 200 and request 1 bidding 150, both reading the price 100 before either
writes — both bids are accepted, yet the final `current_price` is 150: strictly
below the maximum accepted bid 200, contradicting the claimed invariant that
the final price equals the maximum accepted amount. -/
theorem lost_update_race :
    (raceRun raceInit raceSchedule).accepted = [200, 150] ∧
    (raceRun raceInit raceSchedule).current_price = 150 ∧
    200 ∈ (raceRun raceInit raceSchedule).accepted ∧
    (raceRun raceInit raceSchedule).current_price < 200 :=
  ⟨rfl, rfl, by decide, by decide⟩

/-- C8 counterexample: the claim says one `now` is computed per listing request
and shared by every auction of the response; but the code calls
`datetime.now` inside the per-auction loop.  With two identical auctions
(window `[0, 10]`) and the clock jumping from 5 to 20 between the two loop
iterations, the first is reported live and the second ended — an output no
single-`now` request can produce, as the non-existence half states. -/
theorem per_auction_clock_counterexample :
    (list_auctions twinDB none 20 jumpClock).map (fun v => (v.is_live, v.has_ended)) =
      [(true, false), (false, true)] ∧
    ¬ ∃ t : Int, list_auctions twinDB none 20 (fun _ => t) =
        list_auctions twinDB none 20 jumpClock := by
  refine ⟨rfl, ?_⟩
  rintro ⟨t, ht⟩
  have hmap := congrArg (List.map AuctionView.is_live) ht
  have hR : (list_auctions twinDB none 20 jumpClock).map AuctionView.is_live =
      [true, false] := rfl
  have hL : (list_auctions twinDB none 20 (fun _ => t)).map AuctionView.is_live =
      [decide (liveAuction.start_time ≤ t ∧ t ≤ liveAuction.end_time),
       decide (liveAuction.start_time ≤ t ∧ t ≤ liveAuction.end_time)] := rfl
  rw [hL, hR] at hmap
  injection hmap with h1 hmap1
  injection hmap1 with h2 _
  rw [h1] at h2
  exact absurd h2 (by decide)

/-- C8 (amended): within the listing of one request, the `i`-th returned
auction gets both its `is_live` and its `has_ended` flag from the same clock
reading, namely the `i`-th call `clock i` made inside the loop — but the loop
makes one clock call per auction rather than one per request. -/
theorem list_flags_per_auction_now (st : DB) (sf : Option String) (lim : Nat)
    (clock : Nat → Int) (i : Nat) (v : AuctionView)
    (h : (list_auctions st sf lim clock)[i]? = some v) :
    ∃ p, (get_documents st sf lim)[i]? = some p ∧
      v.is_live = decide (p.2.start_time ≤ clock i ∧ clock i ≤ p.2.end_time) ∧
      v.has_ended = decide (clock i > p.2.end_time) := by
  rw [list_auctions, decorateAll_getElem?] at h
  simp only [Nat.zero_add] at h
  cases hp : (get_documents st sf lim)[i]? with
  | none =>
    rw [hp] at h
    simp at h
  | some p =>
    rw [hp] at h
    simp at h
    refine ⟨p, rfl, ?_, ?_⟩
    · rw [← h]
      rfl
    · rw [← h]
      rfl

/-- C8 witness: the first entry of the twin listing under `jumpClock` gets both
flags from `jumpClock 0 = 5`. -/
theorem list_flags_per_auction_now_witness :
    (decorateAuction (vid1, liveAuction) 5).is_live =
      decide (liveAuction.start_time ≤ jumpClock 0 ∧
        jumpClock 0 ≤ liveAuction.end_time) := by
  obtain ⟨p, hp, hlive, _⟩ :=
    list_flags_per_auction_now twinDB none 20 jumpClock 0
      (decorateAuction (vid1, liveAuction) 5) rfl
  have hpv : (get_documents twinDB none 20)[0]? = some (vid1, liveAuction) := rfl
  obtain rfl := Option.some.inj (hpv.symm.trans hp)
  exact hlive


/-- C9: the auction detail's `top_bids` is `topN` with `n = 10`: at most 10
bids, ordered by amount descending, drawn from the auction's own stored bids,
containing only amounts no smaller than anything left out, and — the
determinism guarantee — for every amount the tied bids appear exactly in their
stored insertion order (earliest first). -/
theorem top_bids_spec (st : DB) (aid : String) :
    (topN st aid 10).length ≤ 10 ∧
    List.Pairwise (fun x y : String × Bid => y.2.amount ≤ x.2.amount) (topN st aid 10) ∧
    (∀ y, y ∈ topN st aid 10 → y ∈ st.bids ∧ y.2.auction_id = aid) ∧
    (∀ x, x ∈ (sortByAmountDesc (bidsFor st aid)).drop 10 →
      ∀ y, y ∈ topN st aid 10 → x.2.amount ≤ y.2.amount) ∧
    (∀ q : ℚ,
      (sortByAmountDesc (bidsFor st aid)).filter (fun p => decide (p.2.amount = q)) =
        (bidsFor st aid).filter (fun p => decide (p.2.amount = q))) ∧
    (∀ d, get_auction st aid = .ok d → d.top_bids = topN st aid 10) := by
  refine ⟨?_, ?_, ?_, ?_, ?_, ?_⟩
  · show (List.take 10 (sortByAmountDesc (bidsFor st aid))).length ≤ 10
    exact List.length_take_le 10 _
  · show List.Pairwise _ (List.take 10 (sortByAmountDesc (bidsFor st aid)))
    exact List.Pairwise.sublist (List.take_sublist _ _) (pairwise_sortByAmountDesc _)
  · intro y hy
    have hy' : y ∈ List.take 10 (sortByAmountDesc (bidsFor st aid)) := hy
    have h1 : y ∈ sortByAmountDesc (bidsFor st aid) := List.mem_of_mem_take hy'
    have h2 : y ∈ bidsFor st aid := (perm_sortByAmountDesc _).mem_iff.mp h1
    have h3 := List.mem_filter.mp h2
    exact ⟨h3.1, eq_of_beq h3.2⟩
  · intro x hx y hy
    have hy' : y ∈ List.take 10 (sortByAmountDesc (bidsFor st aid)) := hy
    have hps := pairwise_sortByAmountDesc (bidsFor st aid)
    rw [← List.take_append_drop 10 (sortByAmountDesc (bidsFor st aid))] at hps
    exact (List.pairwise_append.mp hps).2.2 y hy' x hx
  · exact filter_sortByAmountDesc _
  · intro d h
    rw [get_auction] at h
    split at h
    · exact absurd h (by simp)
    · split at h
      · exact absurd h (by simp)
      · obtain rfl := Except.ok.inj h
        rfl

/-- C9 witness: on the four stored bids 120, 150, 150, 110, the top bids come
out 150 ("b2"), 150 ("b3"), 120, 110 — the tie resolved to the
earlier-inserted "b2" first — and the theorem applies to the member "b2". -/
theorem top_bids_spec_witness :
    topN bidDB vid1 10 =
      [("b2", { auction_id := vid1, bidder_name := "B", amount := 150, created_at := 2 }),
       ("b3", { auction_id := vid1, bidder_name := "C", amount := 150, created_at := 3 }),
       ("b1", { auction_id := vid1, bidder_name := "A", amount := 120, created_at := 1 }),
       ("b4", { auction_id := vid1, bidder_name := "D", amount := 110, created_at := 4 })] ∧
    ("b2", ({ auction_id := vid1, bidder_name := "B", amount := 150,
              created_at := 2 } : Bid)) ∈ bidDB.bids ∧
    ("b2", ({ auction_id := vid1, bidder_name := "B", amount := 150,
              created_at := 2 } : Bid)).2.auction_id = vid1 :=
  ⟨rfl, (top_bids_spec bidDB vid1).2.2.1 _ (by decide)⟩

/-- C10: whenever `place_bid` rejects a bid — for any error at all: unhandled
exception, auction not found, auction not live, or amount not strictly above
the current price — the returned store state is exactly the input state: no bid
inserted, no auction field modified. -/
theorem place_bid_rejection_leaves_state (st : DB) (aid : String)
    (payload : PlaceBidRequest) (now : Int) (newBidId : String) (e : ApiError)
    (h : (place_bid st aid payload now newBidId).1 = .error e) :
    (place_bid st aid payload now newBidId).2 = st := by
  rcases place_bid_cases st aid payload now newBidId with ⟨_, hst⟩ | ⟨a, _, _, _, hok, _⟩
  · exact hst
  · rw [hok] at h
    exact absurd h (by simp)

/-- C10 witness: the bid at `now = 20`, outside the window `[0, 10]`, is
rejected as not live and leaves the store untouched. -/
theorem place_bid_rejection_leaves_state_witness :
    (place_bid liveDB vid1 { bidder_name := "A", amount := 150 } 20 "b1").2 = liveDB :=
  place_bid_rejection_leaves_state liveDB vid1
    { bidder_name := "A", amount := 150 } 20 "b1"
    (.http 400 "Auction is not live") rfl

end Auctions
